import Mathlib

/-!
Verification of the core of `CopyTrade_Server.py` (NDBOSSY/Copy-Trading).

The server keeps three pieces of global state (lines 19-21 of the source):
`connected_accounts` (a Python dict from account id to an account record),
`recent_signals` (a Python list of signal dicts) and `master_account`
(either `None` or an account id string).  We embed Python dicts as ordered
association lists with Python's dict semantics (update in place keeps the
position of a key, a fresh key is appended at the end, `del` removes the
key), timestamps as integers (seconds), and JSON leaf values as either
strings or integers.
-/

set_option autoImplicit false

/-- A JSON-ish leaf value carried in a signal payload: the payloads the
server receives are free-form JSON objects, and the generated fields are a
string (`signal_id`, `master_account`) or a number (`timestamp`). -/
inductive JVal where
  | str : String → JVal
  | num : Int → JVal
deriving DecidableEq

/-- One account record, the value stored in `connected_accounts`
(source lines 139-152). -/
structure Account where
  account_id : String
  name : String
  is_master : Bool
  connected_since : Int
  last_seen : Int
  equity : Int
  profit : Int
  status : String
  ip_address : String
  license_owner : Option String
  license_key : Option String
deriving DecidableEq

/-- Lookup in a Python dict embedded as an ordered association list.
With no duplicate keys (the dict invariant) this is the unique binding. -/
def dictLookup {α : Type} : List (String × α) → String → Option α
  | [], _ => none
  | p :: rest, k => if p.1 = k then some p.2 else dictLookup rest k

/-- `d[k] = v` on a Python dict: an existing key keeps its position and
gets the new value, a fresh key is appended at the end. -/
def dictSet {α : Type} : List (String × α) → String → α → List (String × α)
  | [], k, v => [(k, v)]
  | p :: rest, k, v => if p.1 = k then (k, v) :: rest else p :: dictSet rest k v

/-- `del d[k]` on a Python dict: removes the (first) binding of `k`. -/
def dictDel {α : Type} : List (String × α) → String → List (String × α)
  | [], _ => []
  | p :: rest, k => if p.1 = k then rest else p :: dictDel rest k

/-- The dict invariant: every key occurs at most once. -/
def NodupKeys {α : Type} (m : List (String × α)) : Prop :=
  (m.map Prod.fst).Nodup

instance {α : Type} (m : List (String × α)) : Decidable (NodupKeys m) :=
  List.nodupDecidable _

/-- A stored signal: the Python dict built at source lines 81-86. -/
abbrev Signal : Type := List (String × JVal)

/-- The server's global mutable state (source lines 19-21). -/
structure ServerState where
  connected_accounts : List (String × Account)
  recent_signals : List Signal
  master_account : Option String
deriving DecidableEq

/-- State at process start: empty dict, empty list, no master. -/
def initialState : ServerState :=
  { connected_accounts := [], recent_signals := [], master_account := none }

/-- Outcome of a request as far as the core is concerned: HTTP 200 with
`status: success`, or HTTP 400 for a missing/empty required field. -/
inductive Resp where
  | success
  | validationError
deriving DecidableEq

/-- The JSON body of a `/register` request (source lines 131-134 and
145-151); `none` models an absent key, `account_id = ""` models a
missing or falsy `account_id`. -/
structure RegisterReq where
  account_id : String
  name : Option String
  is_master : Option Bool
  equity : Option Int
  profit : Option Int
  license_owner : Option String
  license_key : Option String
deriving DecidableEq

/-- `register_account` (source lines 125-175): rejects a falsy
`account_id` with 400; otherwise builds the fresh record, sets
`master_account` when `is_master` (line 156), and overwrites the dict
entry (line 161). -/
def register_account (st : ServerState) (req : RegisterReq) (now : Int)
    (ip : String) : ServerState × Resp :=
  if req.account_id = "" then (st, .validationError)
  else
    let is_master := req.is_master.getD false
    let account_data : Account :=
      { account_id := req.account_id
        name := req.name.getD "Unknown"
        is_master := is_master
        connected_since := now
        last_seen := now
        equity := req.equity.getD 0
        profit := req.profit.getD 0
        status := "connected"
        ip_address := ip
        license_owner := req.license_owner
        license_key := req.license_key }
    ({ st with
        master_account := if is_master then some req.account_id else st.master_account
        connected_accounts := dictSet st.connected_accounts req.account_id account_data },
     .success)

/-- `heartbeat` (source lines 206-232): 400 on falsy id; for a known id
updates `last_seen`, `equity`/`profit` (defaulting to the prior values)
and `status`; an unknown id is only logged and still answers success. -/
def heartbeat (st : ServerState) (account_id : String)
    (equity profit : Option Int) (now : Int) : ServerState × Resp :=
  if account_id = "" then (st, .validationError)
  else
    match dictLookup st.connected_accounts account_id with
    | some acc =>
        ({ st with
            connected_accounts :=
              dictSet st.connected_accounts account_id
                { acc with
                    last_seen := now
                    equity := equity.getD acc.equity
                    profit := profit.getD acc.profit
                    status := "connected" } },
         .success)
    | none => (st, .success)

/-- `disconnect` (source lines 234-263): 400 on falsy id; for a known id
sets `status` to `"disconnected"` (line 256) and clears `master_account`
when the id is the current master (lines 257-258); an unknown id is a
no-op answering success. -/
def disconnect (st : ServerState) (account_id : String) : ServerState × Resp :=
  if account_id = "" then (st, .validationError)
  else
    match dictLookup st.connected_accounts account_id with
    | some acc =>
        ({ st with
            connected_accounts :=
              dictSet st.connected_accounts account_id { acc with status := "disconnected" }
            master_account :=
              if st.master_account = some account_id then none else st.master_account },
         .success)
    | none => (st, .success)

/-- One deletion step of the reaper's second loop (source lines 47-51):
delete the stale id, and clear `master_account` when it is truthy and
equal to the deleted id. -/
def delStep (s : List (String × Account) × Option String) (acc_id : String) :
    List (String × Account) × Option String :=
  (dictDel s.1 acc_id,
   match s.2 with
   | some m => if m ≠ "" ∧ acc_id = m then none else some m
   | none => none)

/-- One cycle of `cleanup_stale_connections` (source lines 30-57): under
the lock, collect the ids whose record is older than 300 seconds (lines
42-45), then delete each and demote the master if it was deleted (lines
47-51). -/
def cleanup_stale_connections (now : Int) (st : ServerState) : ServerState :=
  let stale_accounts :=
    (st.connected_accounts.filter (fun p => 300 < now - p.2.last_seen)).map Prod.fst
  let final := stale_accounts.foldl delStep (st.connected_accounts, st.master_account)
  { st with connected_accounts := final.1, master_account := final.2 }

/-- The generated-then-merged signal dict of source lines 81-86: the three
server fields first, then every payload entry written over them in payload
order (Python's `**data` in a dict literal). -/
def signal_data_of (st : ServerState) (pl : List (String × JVal)) (now : Int) :
    Signal :=
  let base : List (String × JVal) :=
    [("signal_id",
      JVal.str ("sig_" ++ toString now ++ "_" ++ toString st.recent_signals.length)),
     ("timestamp", JVal.num now),
     ("master_account",
      JVal.str (match st.master_account with
        | some m => if m ≠ "" then m else "no_master"
        | none => "no_master"))]
  pl.foldl (fun m p => dictSet m p.1 p.2) base

/-- `handle_signal` (source lines 69-104), after the API-key check: a
falsy (empty) body is a 400 and publishes nothing; otherwise the merged
signal dict is appended and, if the log then exceeds 1000 entries, the
entry at index 0 is popped (lines 88-92).  The second component is the
`signal_id` value the response reports (line 98), `none` on the 400. -/
def handle_signal (st : ServerState) (pl : List (String × JVal)) (now : Int) :
    ServerState × Option JVal :=
  if pl = [] then (st, none)
  else
    let signal_data := signal_data_of st pl now
    let appended := st.recent_signals ++ [signal_data]
    ({ st with
        recent_signals := if 1000 < appended.length then appended.tail else appended },
     dictLookup signal_data "signal_id")

/-- Filtering of source line 114, with Python's dynamic typing made
explicit: `s['timestamp'] >= cutoff_time` raises (and the route answers
500, lines 121-122) when a signal's `timestamp` is missing or not a
number. -/
def filterSignals (cutoff : Int) : List Signal → Except Unit (List Signal)
  | [] => .ok []
  | s :: rest =>
    match dictLookup s "timestamp" with
    | some (JVal.num t) =>
        match filterSignals cutoff rest with
        | .ok r => .ok (if cutoff ≤ t then s :: r else r)
        | .error e => .error e
    | _ => .error ()

/-- `get_signals` (source lines 106-122): keeps the signals whose
`timestamp` is at least `now - hours*3600`, in log order; reading only. -/
def get_signals (st : ServerState) (hours now : Int) :
    Except Unit (List Signal) :=
  filterSignals (now - hours * 3600) st.recent_signals

/-- One state-mutating request or reaper cycle, with its wall-clock
instant(s) as data. -/
inductive Op where
  | register (req : RegisterReq) (now : Int) (ip : String)
  | heartbeatOp (account_id : String) (equity profit : Option Int) (now : Int)
  | disconnectOp (account_id : String)
  | cleanup (now : Int)
  | signal (pl : List (String × JVal)) (now : Int)

/-- Effect of one operation on the global state. -/
def step (st : ServerState) : Op → ServerState
  | .register req now ip => (register_account st req now ip).1
  | .heartbeatOp id e p now => (heartbeat st id e p now).1
  | .disconnectOp id => (disconnect st id).1
  | .cleanup now => cleanup_stale_connections now st
  | .signal pl now => (handle_signal st pl now).1

/-- The state after a sequence of operations from process start. -/
def run (ops : List Op) : ServerState :=
  ops.foldl step initialState

/-! ### Dictionary lemmas -/

theorem dictLookup_dictSet {α : Type} (m : List (String × α)) (k k' : String) (v : α) :
    dictLookup (dictSet m k v) k' = if k = k' then some v else dictLookup m k' := by
  induction m with
  | nil => simp [dictSet, dictLookup]
  | cons p rest ih =>
    by_cases h : p.1 = k
    · simp only [dictSet, if_pos h, dictLookup]
      by_cases h' : k = k'
      · simp [h']
      · simp [h', h ▸ h']
    · simp only [dictSet, if_neg h, dictLookup, ih]
      by_cases h' : p.1 = k'
      · have : ¬ k = k' := fun e => h (e ▸ h')
        simp [h', this]
      · simp [h']

theorem mem_keys_dictSet {α : Type} (m : List (String × α)) (k x : String) (v : α) :
    x ∈ (dictSet m k v).map Prod.fst ↔ x ∈ m.map Prod.fst ∨ x = k := by
  induction m with
  | nil => simp [dictSet]
  | cons p rest ih =>
    by_cases h : p.1 = k
    · simp only [dictSet, if_pos h, List.map_cons, List.mem_cons]
      rw [← h]
      tauto
    · simp only [dictSet, if_neg h, List.map_cons, List.mem_cons, ih]
      tauto

theorem nodupKeys_cons {α : Type} (p : String × α) (rest : List (String × α)) :
    NodupKeys (p :: rest) ↔ p.1 ∉ rest.map Prod.fst ∧ NodupKeys rest := by
  simp [NodupKeys]

theorem nodupKeys_dictSet {α : Type} (m : List (String × α)) (k : String) (v : α)
    (h : NodupKeys m) : NodupKeys (dictSet m k v) := by
  induction m with
  | nil => simp [dictSet, NodupKeys]
  | cons p rest ih =>
    rcases (nodupKeys_cons p rest).1 h with ⟨hp, hrest⟩
    by_cases hk : p.1 = k
    · simp only [dictSet, if_pos hk]
      exact (nodupKeys_cons (k, v) rest).2 ⟨hk ▸ hp, hrest⟩
    · simp only [dictSet, if_neg hk]
      refine (nodupKeys_cons p _).2 ⟨?_, ih hrest⟩
      intro hmem
      rcases (mem_keys_dictSet rest k p.1 v).1 hmem with hmem' | heq
      · exact hp hmem'
      · exact hk heq

theorem dictLookup_eq_none_of_not_mem {α : Type} (m : List (String × α)) (k : String)
    (h : k ∉ m.map Prod.fst) : dictLookup m k = none := by
  induction m with
  | nil => rfl
  | cons p rest ih =>
    simp only [List.map_cons, List.mem_cons] at h
    push_neg at h
    simp only [dictLookup, if_neg (fun e : p.1 = k => h.1 e.symm)]
    exact ih h.2

theorem keys_dictDel_sublist {α : Type} (m : List (String × α)) (k : String) :
    List.Sublist ((dictDel m k).map Prod.fst) (m.map Prod.fst) := by
  induction m with
  | nil => simp [dictDel]
  | cons p rest ih =>
    by_cases h : p.1 = k
    · simp only [dictDel, if_pos h, List.map_cons]
      exact List.sublist_cons_self _ _
    · simp only [dictDel, if_neg h, List.map_cons]
      exact ih.cons₂ _

theorem nodupKeys_dictDel {α : Type} (m : List (String × α)) (k : String)
    (h : NodupKeys m) : NodupKeys (dictDel m k) :=
  (keys_dictDel_sublist m k).nodup h

theorem dictLookup_dictDel {α : Type} (m : List (String × α)) (k k' : String)
    (h : NodupKeys m) :
    dictLookup (dictDel m k) k' = if k' = k then none else dictLookup m k' := by
  induction m with
  | nil => simp [dictDel, dictLookup]
  | cons p rest ih =>
    rcases (nodupKeys_cons p rest).1 h with ⟨hp, hrest⟩
    by_cases hk : p.1 = k
    · simp only [dictDel, if_pos hk]
      by_cases h' : k' = k
      · subst h'
        rw [if_pos rfl]
        exact dictLookup_eq_none_of_not_mem rest k' (hk ▸ hp)
      · simp only [dictLookup, if_neg h']
        rw [if_neg (fun e : p.1 = k' => h' (e ▸ hk ▸ rfl))]
    · simp only [dictDel, if_neg hk, dictLookup]
      by_cases hpk : p.1 = k'
      · have hne : ¬ k' = k := fun e => hk (hpk.trans e)
        simp [hpk, hne]
      · rw [if_neg hpk, if_neg hpk, ih hrest]

theorem mem_keys_of_dictLookup {α : Type} (m : List (String × α)) (k : String) (a : α)
    (h : dictLookup m k = some a) : k ∈ m.map Prod.fst := by
  induction m with
  | nil => simp [dictLookup] at h
  | cons p rest ih =>
    simp only [dictLookup] at h
    by_cases hp : p.1 = k
    · simp [← hp]
    · rw [if_neg hp] at h
      simp [ih h]

theorem dictLookup_of_mem_nodup {α : Type} (m : List (String × α)) (k : String) (a : α)
    (hnd : NodupKeys m) (h : (k, a) ∈ m) : dictLookup m k = some a := by
  induction m with
  | nil => simp at h
  | cons p rest ih =>
    rcases (nodupKeys_cons p rest).1 hnd with ⟨hp, hrest⟩
    rcases List.mem_cons.1 h with rfl | hmem
    · simp [dictLookup]
    · have hk : k ∈ rest.map Prod.fst := List.mem_map.2 ⟨(k, a), hmem, rfl⟩
      have hne : p.1 ≠ k := fun e => hp (e ▸ hk)
      simp only [dictLookup, if_neg hne]
      exact ih hrest hmem

/-! ### Reaper characterization -/

theorem foldl_delStep_fst (L : List String) (accs : List (String × Account))
    (master : Option String) (k : String) (h : NodupKeys accs) :
    dictLookup (L.foldl delStep (accs, master)).1 k =
      if k ∈ L then none else dictLookup accs k := by
  induction L generalizing accs master with
  | nil => simp
  | cons i rest ih =>
    have hnd : NodupKeys (dictDel accs i) := nodupKeys_dictDel accs i h
    simp only [List.foldl_cons]
    rw [show delStep (accs, master) i = (dictDel accs i, (delStep (accs, master) i).2) from rfl]
    rw [ih _ _ hnd, dictLookup_dictDel accs i k h]
    by_cases hk : k ∈ rest
    · simp [hk, List.mem_cons]
    · by_cases hki : k = i
      · simp [hk, hki]
      · simp [hk, hki, List.mem_cons]

theorem foldl_delStep_snd (L : List String) (accs : List (String × Account))
    (master : Option String) :
    (L.foldl delStep (accs, master)).2 =
      match master with
      | some m => if m ≠ "" ∧ m ∈ L then none else some m
      | none => none := by
  induction L generalizing accs master with
  | nil =>
    cases master with
    | none => simp
    | some m => simp
  | cons i rest ih =>
    simp only [List.foldl_cons]
    rw [ih]
    cases master with
    | none => simp [delStep]
    | some m =>
      by_cases hclear : m ≠ "" ∧ i = m
      · simp only [delStep, if_pos hclear]
        rcases hclear with ⟨hme, rfl⟩
        simp [hme]
      · simp only [delStep, if_neg hclear]
        push_neg at hclear
        by_cases hm : m = ""
        · simp [hm]
        · have him : i ≠ m := hclear hm
          have hmi : ¬ m = i := fun e => him e.symm
          simp only [ne_eq, hm, not_false_eq_true, true_and, List.mem_cons]
          by_cases hmr : m ∈ rest
          · simp [hmr]
          · simp [hmr, hmi]

theorem mem_stale_iff (accs : List (String × Account)) (now : Int) (k : String)
    (h : NodupKeys accs) :
    (k ∈ ((accs.filter (fun p => 300 < now - p.2.last_seen)).map Prod.fst)) ↔
      (∃ a, dictLookup accs k = some a ∧ 300 < now - a.last_seen) := by
  constructor
  · intro hk
    rcases List.mem_map.1 hk with ⟨p, hpf, rfl⟩
    rcases List.mem_filter.1 hpf with ⟨hpm, hstale⟩
    refine ⟨p.2, dictLookup_of_mem_nodup accs p.1 p.2 h hpm, by simpa using hstale⟩
  · rintro ⟨a, hla, hstale⟩
    have hmem : (k, a) ∈ accs := by
      clear h
      induction accs with
      | nil => simp [dictLookup] at hla
      | cons p rest ih =>
        simp only [dictLookup] at hla
        by_cases hp : p.1 = k
        · rw [if_pos hp] at hla
          have hpa : p = (k, a) := by
            obtain ⟨p1, p2⟩ := p
            simp_all
          rw [hpa]
          exact List.mem_cons_self _ _
        · rw [if_neg hp] at hla
          exact List.mem_cons_of_mem _ (ih hla)
    exact List.mem_map.2 ⟨(k, a), List.mem_filter.2 ⟨hmem, by simpa using hstale⟩, rfl⟩

/-- Whether the account currently referenced by `master_account` is present
and stale at instant `now` (the condition under which one reaper cycle
demotes the master). -/
def masterIsStale (st : ServerState) (now : Int) : Bool :=
  match st.master_account with
  | some m =>
    match dictLookup st.connected_accounts m with
    | some a => decide (300 < now - a.last_seen)
    | none => false
  | none => false

theorem cleanup_lookup (st : ServerState) (now : Int) (k : String)
    (h : NodupKeys st.connected_accounts) :
    dictLookup (cleanup_stale_connections now st).connected_accounts k =
      match dictLookup st.connected_accounts k with
      | some a => if 300 < now - a.last_seen then none else some a
      | none => none := by
  unfold cleanup_stale_connections
  simp only
  rw [foldl_delStep_fst _ _ _ _ h]
  cases hla : dictLookup st.connected_accounts k with
  | none =>
    have : k ∉ (st.connected_accounts.filter (fun p => 300 < now - p.2.last_seen)).map Prod.fst := by
      intro hmem
      rcases (mem_stale_iff _ now k h).1 hmem with ⟨a, ha, _⟩
      rw [hla] at ha
      exact Option.noConfusion ha
    simp [this, hla]
  | some a =>
    by_cases hstale : 300 < now - a.last_seen
    · have : k ∈ (st.connected_accounts.filter (fun p => 300 < now - p.2.last_seen)).map Prod.fst :=
        (mem_stale_iff _ now k h).2 ⟨a, hla, hstale⟩
      simp [this, hstale]
    · have : k ∉ (st.connected_accounts.filter (fun p => 300 < now - p.2.last_seen)).map Prod.fst := by
        intro hmem
        rcases (mem_stale_iff _ now k h).1 hmem with ⟨a', ha', hstale'⟩
        rw [hla] at ha'
        cases ha'
        exact hstale hstale'
      simp [this, hla, hstale]

theorem cleanup_master (st : ServerState) (now : Int)
    (h : NodupKeys st.connected_accounts)
    (hm : ∀ m, st.master_account = some m → m ≠ "") :
    (cleanup_stale_connections now st).master_account =
      if masterIsStale st now then none else st.master_account := by
  unfold cleanup_stale_connections
  simp only
  rw [foldl_delStep_snd]
  cases hmv : st.master_account with
  | none => simp [masterIsStale, hmv]
  | some m =>
    have hne : m ≠ "" := hm m hmv
    cases hla : dictLookup st.connected_accounts m with
    | none =>
      have hnm : m ∉ (st.connected_accounts.filter (fun p => 300 < now - p.2.last_seen)).map Prod.fst := by
        intro hmem
        rcases (mem_stale_iff _ now m h).1 hmem with ⟨a, ha, _⟩
        rw [hla] at ha
        exact Option.noConfusion ha
      simp [masterIsStale, hmv, hla, hnm]
    | some a =>
      by_cases hstale : 300 < now - a.last_seen
      · have hmm : m ∈ (st.connected_accounts.filter (fun p => 300 < now - p.2.last_seen)).map Prod.fst :=
          (mem_stale_iff _ now m h).2 ⟨a, hla, hstale⟩
        simp [masterIsStale, hmv, hla, hne, hmm, hstale]
      · have hnm : m ∉ (st.connected_accounts.filter (fun p => 300 < now - p.2.last_seen)).map Prod.fst := by
          intro hmem
          rcases (mem_stale_iff _ now m h).1 hmem with ⟨a', ha', hstale'⟩
          rw [hla] at ha'
          cases ha'
          exact hstale hstale'
        simp [masterIsStale, hmv, hla, hne, hnm, hstale]

/-! ### Reachable-state invariant -/

theorem foldl_delStep_nodup (L : List String) (accs : List (String × Account))
    (master : Option String) (h : NodupKeys accs) :
    NodupKeys (L.foldl delStep (accs, master)).1 := by
  induction L generalizing accs master with
  | nil => simpa using h
  | cons i rest ih =>
    simp only [List.foldl_cons]
    rw [show delStep (accs, master) i = (dictDel accs i, (delStep (accs, master) i).2) from rfl]
    exact ih _ _ (nodupKeys_dictDel accs i h)

/-- The master pointer either is clear or names a non-empty id whose
record is present in the registry. -/
def MasterOk (st : ServerState) : Prop :=
  ∀ m, st.master_account = some m →
    m ≠ "" ∧ (dictLookup st.connected_accounts m).isSome = true

/-- Invariant maintained by every operation: the registry is a dict with
distinct keys, the master pointer is valid, and the signal log holds at
most 1000 entries. -/
def StateInv (st : ServerState) : Prop :=
  NodupKeys st.connected_accounts ∧ MasterOk st ∧ st.recent_signals.length ≤ 1000

theorem stateInv_initialState : StateInv initialState := by
  refine ⟨List.nodup_nil, ?_, by simp [initialState]⟩
  intro m hm
  simp [initialState] at hm

theorem handle_signal_length (st : ServerState) (pl : List (String × JVal)) (now : Int)
    (h : st.recent_signals.length ≤ 1000) :
    (handle_signal st pl now).1.recent_signals.length ≤ 1000 := by
  unfold handle_signal
  by_cases hpl : pl = []
  · simpa [hpl] using h
  · simp only [if_neg hpl, List.length_append, List.length_singleton]
    by_cases hlen : 1000 < st.recent_signals.length + 1
    · rw [if_pos hlen, List.length_tail, List.length_append, List.length_singleton]
      omega
    · rw [if_neg hlen, List.length_append, List.length_singleton]
      omega

theorem handle_signal_preserves_registry (st : ServerState) (pl : List (String × JVal))
    (now : Int) :
    (handle_signal st pl now).1.connected_accounts = st.connected_accounts ∧
    (handle_signal st pl now).1.master_account = st.master_account := by
  unfold handle_signal
  by_cases hpl : pl = [] <;> simp [hpl]

theorem stateInv_step (st : ServerState) (op : Op) (h : StateInv st) :
    StateInv (step st op) := by
  obtain ⟨hnd, hmo, hlen⟩ := h
  cases op with
  | register req now ip =>
    simp only [step, register_account]
    by_cases hid : req.account_id = ""
    · simp only [if_pos hid]
      exact ⟨hnd, hmo, hlen⟩
    · simp only [if_neg hid]
      refine ⟨nodupKeys_dictSet _ _ _ hnd, ?_, hlen⟩
      intro m hm
      simp only at hm
      by_cases hmast : req.is_master.getD false
      · rw [if_pos hmast] at hm
        cases hm
        refine ⟨hid, ?_⟩
        rw [dictLookup_dictSet]
        simp
      · rw [if_neg hmast] at hm
        obtain ⟨hne, hsome⟩ := hmo m hm
        refine ⟨hne, ?_⟩
        rw [dictLookup_dictSet]
        by_cases he : req.account_id = m
        · simp [he]
        · simpa [he] using hsome
  | heartbeatOp id e p now =>
    simp only [step, heartbeat]
    by_cases hid : id = ""
    · simp only [if_pos hid]
      exact ⟨hnd, hmo, hlen⟩
    · simp only [if_neg hid]
      cases hla : dictLookup st.connected_accounts id with
      | none => exact ⟨hnd, hmo, hlen⟩
      | some acc =>
        refine ⟨nodupKeys_dictSet _ _ _ hnd, ?_, hlen⟩
        intro m hm
        simp only at hm
        obtain ⟨hne, hsome⟩ := hmo m hm
        refine ⟨hne, ?_⟩
        rw [dictLookup_dictSet]
        by_cases he : id = m
        · simp [he]
        · simpa [he] using hsome
  | disconnectOp id =>
    simp only [step, disconnect]
    by_cases hid : id = ""
    · simp only [if_pos hid]
      exact ⟨hnd, hmo, hlen⟩
    · simp only [if_neg hid]
      cases hla : dictLookup st.connected_accounts id with
      | none => exact ⟨hnd, hmo, hlen⟩
      | some acc =>
        refine ⟨nodupKeys_dictSet _ _ _ hnd, ?_, hlen⟩
        intro m hm
        simp only at hm
        by_cases hmast : st.master_account = some id
        · rw [if_pos hmast] at hm
          cases hm
        · rw [if_neg hmast] at hm
          obtain ⟨hne, hsome⟩ := hmo m hm
          refine ⟨hne, ?_⟩
          rw [dictLookup_dictSet]
          by_cases he : id = m
          · simp [he]
          · simpa [he] using hsome
  | cleanup now =>
    have hm : ∀ m, st.master_account = some m → m ≠ "" := fun m hmv => (hmo m hmv).1
    refine ⟨?_, ?_, ?_⟩
    · simp only [step]
      unfold cleanup_stale_connections
      exact foldl_delStep_nodup _ _ _ hnd
    · intro m hmv
      simp only [step] at hmv ⊢
      rw [cleanup_master st now hnd hm] at hmv
      by_cases hstale : masterIsStale st now
      · rw [if_pos hstale] at hmv
        cases hmv
      · rw [if_neg hstale] at hmv
        obtain ⟨hne, hsome⟩ := hmo m hmv
        refine ⟨hne, ?_⟩
        rw [cleanup_lookup st now m hnd]
        obtain ⟨a, ha⟩ := Option.isSome_iff_exists.1 hsome
        rw [ha]
        have hnot : ¬ (300 < now - a.last_seen) := by
          intro hcon
          apply hstale
          simp [masterIsStale, hmv, ha, hcon]
        simp [hnot]
    · simp only [step]
      simpa [cleanup_stale_connections] using hlen
  | signal pl now =>
    obtain ⟨hca, hma⟩ := handle_signal_preserves_registry st pl now
    simp only [step]
    refine ⟨?_, ?_, handle_signal_length st pl now hlen⟩
    · rw [hca]
      exact hnd
    · intro m hmv
      rw [hma] at hmv
      rw [hca]
      exact hmo m hmv

theorem stateInv_foldl (ops : List Op) (st : ServerState) (h : StateInv st) :
    StateInv (ops.foldl step st) := by
  induction ops generalizing st with
  | nil => simpa using h
  | cons op rest ih =>
    simp only [List.foldl_cons]
    exact ih _ (stateInv_step st op h)

theorem stateInv_run (ops : List Op) : StateInv (run ops) :=
  stateInv_foldl ops initialState stateInv_initialState

/-! ### Signal-log lemmas -/

theorem run_append (ops : List Op) (op : Op) :
    run (ops ++ [op]) = step (run ops) op := by
  unfold run
  rw [List.foldl_append]
  rfl

theorem handle_signal_notfull (st : ServerState) (pl : List (String × JVal)) (now : Int)
    (hpl : pl ≠ []) (hlen : st.recent_signals.length < 1000) :
    (handle_signal st pl now).1.recent_signals =
      st.recent_signals ++ [signal_data_of st pl now] := by
  unfold handle_signal
  rw [if_neg hpl]
  simp only
  have hno : ¬ (1000 < (st.recent_signals ++ [signal_data_of st pl now]).length) := by
    rw [List.length_append, List.length_singleton]
    omega
  rw [if_neg hno]

theorem handle_signal_full (st : ServerState) (pl : List (String × JVal)) (now : Int)
    (hpl : pl ≠ []) (hlen : st.recent_signals.length = 1000) :
    (handle_signal st pl now).1.recent_signals =
      st.recent_signals.tail ++ [signal_data_of st pl now] := by
  unfold handle_signal
  rw [if_neg hpl]
  simp only
  have hgt : 1000 < (st.recent_signals ++ [signal_data_of st pl now]).length := by
    rw [List.length_append, List.length_singleton]
    omega
  rw [if_pos hgt]
  cases hx : st.recent_signals with
  | nil =>
    rw [hx] at hlen
    simp at hlen
  | cons y ys => simp

theorem dictLookup_foldl_dictSet_not_mem (pl : List (String × JVal)) (base : Signal)
    (k : String) (h : k ∉ pl.map Prod.fst) :
    dictLookup (pl.foldl (fun m p => dictSet m p.1 p.2) base) k = dictLookup base k := by
  induction pl generalizing base with
  | nil => rfl
  | cons p rest ih =>
    simp only [List.map_cons, List.mem_cons] at h
    push_neg at h
    simp only [List.foldl_cons]
    rw [ih _ h.2, dictLookup_dictSet, if_neg (fun e : p.1 = k => h.1 e.symm)]

theorem dictLookup_foldl_dictSet (pl : List (String × JVal)) (base : Signal)
    (k : String) (v : JVal) (hnd : NodupKeys pl) (hv : dictLookup pl k = some v) :
    dictLookup (pl.foldl (fun m p => dictSet m p.1 p.2) base) k = some v := by
  induction pl generalizing base with
  | nil => simp [dictLookup] at hv
  | cons p rest ih =>
    rcases (nodupKeys_cons p rest).1 hnd with ⟨hp, hrest⟩
    simp only [dictLookup] at hv
    simp only [List.foldl_cons]
    by_cases hpk : p.1 = k
    · rw [if_pos hpk] at hv
      rw [dictLookup_foldl_dictSet_not_mem _ _ _ (hpk ▸ hp), dictLookup_dictSet,
        if_pos hpk]
      exact hv
    · rw [if_neg hpk] at hv
      exact ih _ hrest hv

theorem filterSignals_all_num (cutoff : Int) (l : List Signal)
    (h : ∀ s ∈ l, ∃ t : Int, dictLookup s "timestamp" = some (JVal.num t)) :
    filterSignals cutoff l = .ok (l.filter (fun s =>
      match dictLookup s "timestamp" with
      | some (JVal.num t) => decide (cutoff ≤ t)
      | _ => false)) := by
  induction l with
  | nil => rfl
  | cons s rest ih =>
    obtain ⟨t, ht⟩ := h s (List.mem_cons_self s rest)
    have hrest := ih (fun x hx => h x (List.mem_cons_of_mem s hx))
    simp only [filterSignals, ht, hrest]
    by_cases hc : cutoff ≤ t
    · simp [List.filter_cons, ht, hc]
    · simp [List.filter_cons, ht, hc]

theorem run_replicate_signal_length (n : Nat) (pl : List (String × JVal)) (now : Int)
    (hpl : pl ≠ []) :
    (run (List.replicate n (Op.signal pl now))).recent_signals.length = min n 1000 := by
  induction n with
  | zero => simp [run, initialState]
  | succ n ih =>
    rw [List.replicate_succ', run_append]
    simp only [step]
    by_cases hlt : (run (List.replicate n (Op.signal pl now))).recent_signals.length < 1000
    · rw [handle_signal_notfull _ pl now hpl hlt, List.length_append,
        List.length_singleton, ih]
      rw [ih] at hlt
      omega
    · have hle := (stateInv_run (List.replicate n (Op.signal pl now))).2.2
      have heq : (run (List.replicate n (Op.signal pl now))).recent_signals.length = 1000 := by
        omega
      rw [handle_signal_full _ pl now hpl heq, List.length_append, List.length_singleton,
        List.length_tail, heq]
      rw [ih] at heq
      omega

/-! ### Claim theorems -/

/-- Claim C1: after any sequence of operations (register, heartbeat,
disconnect, reaper cycles, publishes), `master_account` is either `None`
or holds exactly one id whose record is a key present in
`connected_accounts`. -/
theorem claim1_master_pointer_valid (ops : List Op) :
    (run ops).master_account = none ∨
    ∃ m, (run ops).master_account = some m ∧
      (dictLookup (run ops).connected_accounts m).isSome = true := by
  cases hmv : (run ops).master_account with
  | none => exact Or.inl rfl
  | some m => exact Or.inr ⟨m, rfl, ((stateInv_run ops).2.1 m hmv).2⟩

/-- Claim C2: after every publish the signal log holds at most 1000
entries, and a publish from a full log removes exactly the entry at
position 0 — the earliest-inserted one, since entries are only ever
appended at the end — before appending the new signal (strict FIFO);
from a non-full log it only appends.  (An empty payload is rejected
with 400 and publishes nothing, hence the `pl ≠ []` hypotheses.) -/
theorem claim2_signal_log_capped_fifo (ops : List Op) (pl : List (String × JVal))
    (now : Int) :
    (run (ops ++ [Op.signal pl now])).recent_signals.length ≤ 1000 ∧
    (pl ≠ [] → (run ops).recent_signals.length = 1000 →
      (run (ops ++ [Op.signal pl now])).recent_signals =
        (run ops).recent_signals.tail ++ [signal_data_of (run ops) pl now]) ∧
    (pl ≠ [] → (run ops).recent_signals.length < 1000 →
      (run (ops ++ [Op.signal pl now])).recent_signals =
        (run ops).recent_signals ++ [signal_data_of (run ops) pl now]) := by
  refine ⟨(stateInv_run _).2.2, ?_, ?_⟩
  · intro hpl hfull
    rw [run_append]
    exact handle_signal_full _ pl now hpl hfull
  · intro hpl hlt
    rw [run_append]
    exact handle_signal_notfull _ pl now hpl hlt

theorem claim2_witness :
    (run ([] ++ [Op.signal [("action", JVal.str "buy")] 0])).recent_signals =
      (run []).recent_signals ++
        [signal_data_of (run []) [("action", JVal.str "buy")] 0] :=
  (claim2_signal_log_capped_fifo [] [("action", JVal.str "buy")] 0).2.2
    (by decide) (by decide)

/-- Claim C3: on any reachable state, one reaper cycle removes exactly the
accounts whose `last_seen` is more than 300 seconds before `now`, leaves
every other account's record (and the signal log) unchanged, and clears
`master_account` exactly when the removed set contains the account the
master pointer references. -/
theorem claim3_cleanup_exact (ops : List Op) (now : Int) :
    (∀ k a, dictLookup (run ops).connected_accounts k = some a →
      dictLookup (cleanup_stale_connections now (run ops)).connected_accounts k =
        if 300 < now - a.last_seen then none else some a) ∧
    (∀ k, dictLookup (run ops).connected_accounts k = none →
      dictLookup (cleanup_stale_connections now (run ops)).connected_accounts k = none) ∧
    ((cleanup_stale_connections now (run ops)).master_account =
      if masterIsStale (run ops) now then none else (run ops).master_account) ∧
    (cleanup_stale_connections now (run ops)).recent_signals =
      (run ops).recent_signals := by
  have hnd := (stateInv_run ops).1
  have hmo := (stateInv_run ops).2.1
  refine ⟨?_, ?_, cleanup_master _ now hnd (fun m hm => (hmo m hm).1), rfl⟩
  · intro k a ha
    rw [cleanup_lookup _ now k hnd, ha]
  · intro k hk
    rw [cleanup_lookup _ now k hnd, hk]

theorem claim3_witness :
    dictLookup (cleanup_stale_connections 400
        (run [Op.register (RegisterReq.mk "A" none (some true) none none none none)
          0 "9.9.9.9"])).connected_accounts "A" = none ∧
    (cleanup_stale_connections 400
        (run [Op.register (RegisterReq.mk "A" none (some true) none none none none)
          0 "9.9.9.9"])).master_account = none := by
  have h := claim3_cleanup_exact
    [Op.register (RegisterReq.mk "A" none (some true) none none none none) 0 "9.9.9.9"] 400
  constructor
  · have h1 := h.1 "A"
      (Account.mk "A" "Unknown" true 0 0 0 0 "connected" "9.9.9.9" none none) (by decide)
    rw [h1]
    decide
  · rw [h.2.2.1]
    decide

/-- Claim C4 counterexample: a caller-supplied non-numeric `timestamp`
(possible because the payload is merged over the generated fields) is
stored in the log, and the next query fails with a 500 instead of
returning the matching subset of the log. -/
theorem claim4_counterexample :
    (handle_signal initialState [("timestamp", JVal.str "noon")] 0).1.recent_signals ≠ [] ∧
    get_signals ((handle_signal initialState [("timestamp", JVal.str "noon")] 0).1) 24 0 =
      Except.error () :=
  ⟨by decide, rfl⟩

/-- Claim C4 (amended): for every log state in which each stored signal's
`timestamp` field is numeric, and every `hours ≥ 0`, the query returns
exactly the signals with `timestamp ≥ now - hours*3600`, as a filter of
the log that keeps the original insertion order; the log itself is not
touched (`get_signals` only reads the state). -/
theorem claim4_query_window (st : ServerState) (hours now : Int) (h0 : 0 ≤ hours)
    (hts : ∀ s ∈ st.recent_signals, ∃ t : Int,
      dictLookup s "timestamp" = some (JVal.num t)) :
    get_signals st hours now =
      Except.ok (st.recent_signals.filter (fun s =>
        match dictLookup s "timestamp" with
        | some (JVal.num t) => decide (now - hours * 3600 ≤ t)
        | _ => false)) :=
  filterSignals_all_num (now - hours * 3600) st.recent_signals hts

theorem claim4_witness :
    get_signals (ServerState.mk []
        [[("timestamp", JVal.num 50)], [("timestamp", JVal.num 10)]] none) 0 20 =
      Except.ok [[("timestamp", JVal.num 50)]] := by
  have hts : ∀ s ∈ (ServerState.mk ([] : List (String × Account))
      [[("timestamp", JVal.num 50)], [("timestamp", JVal.num 10)]]
      (none : Option String)).recent_signals,
      ∃ t : Int, dictLookup s "timestamp" = some (JVal.num t) := by
    intro s hs
    rcases List.mem_cons.1 hs with rfl | hs2
    · exact ⟨50, rfl⟩
    rcases List.mem_cons.1 hs2 with rfl | hs3
    · exact ⟨10, rfl⟩
    · exact absurd hs3 (List.not_mem_nil s)
  rw [claim4_query_window _ 0 20 (by decide) hts]
  rfl

theorem handle_signal_response_id (st : ServerState) (now : Int) :
    (handle_signal st [("action", JVal.str "buy")] now).2 =
      some (JVal.str ("sig_" ++ toString now ++ "_" ++
        toString st.recent_signals.length)) :=
  rfl

/-- Claim C5 (code bug): the id of source line 82 is
`sig_<int(time)>_<len(recent_signals)>`.  Once 1000 publishes have filled
the log to its cap, the length stays pinned at 1000, so two further
publishes within the same clock second — two distinct publish operations
of one process lifetime — are both assigned the id `sig_5_1000`. -/
theorem claim5_signal_id_collision :
    (handle_signal (run (List.replicate 1000 (Op.signal [("action", JVal.str "buy")] 5)))
        [("action", JVal.str "buy")] 5).2 = some (JVal.str "sig_5_1000") ∧
    (handle_signal
        (handle_signal (run (List.replicate 1000 (Op.signal [("action", JVal.str "buy")] 5)))
          [("action", JVal.str "buy")] 5).1
        [("action", JVal.str "buy")] 5).2 = some (JVal.str "sig_5_1000") := by
  have hlen : (run (List.replicate 1000
      (Op.signal [("action", JVal.str "buy")] 5))).recent_signals.length = 1000 :=
    (run_replicate_signal_length 1000 _ 5 (by decide)).trans (by decide)
  have hlen2 : (handle_signal (run (List.replicate 1000
      (Op.signal [("action", JVal.str "buy")] 5)))
      [("action", JVal.str "buy")] 5).1.recent_signals.length = 1000 := by
    rw [handle_signal_full _ _ 5 (by decide) hlen, List.length_append,
      List.length_singleton, List.length_tail, hlen]
  constructor
  · rw [handle_signal_response_id, hlen]
    decide
  · rw [handle_signal_response_id, hlen2]
    decide

/-- Claim C6 counterexample: the empty id `""` is an account_id that is
never present in the registry, yet `heartbeat` answers it with the 400
validation error, not success. -/
theorem claim6_counterexample :
    dictLookup initialState.connected_accounts "" = none ∧
    (heartbeat initialState "" none none 0).2 ≠ Resp.success := by
  decide

/-- Claim C6 (amended): for every NON-EMPTY account_id absent from the
registry, heartbeat and disconnect both answer success and leave the
whole state (registry, master pointer, signal log) unchanged — in
particular heartbeat never creates a record for an unknown id. -/
theorem claim6_unknown_tolerated (st : ServerState) (account_id : String)
    (equity profit : Option Int) (now : Int) (hne : account_id ≠ "")
    (habs : dictLookup st.connected_accounts account_id = none) :
    heartbeat st account_id equity profit now = (st, Resp.success) ∧
    disconnect st account_id = (st, Resp.success) := by
  unfold heartbeat disconnect
  rw [if_neg hne, if_neg hne, habs]
  exact ⟨rfl, rfl⟩

theorem claim6_witness :
    heartbeat initialState "ghost" none none 7 = (initialState, Resp.success) ∧
    disconnect initialState "ghost" = (initialState, Resp.success) :=
  claim6_unknown_tolerated initialState "ghost" none none 7 (by decide) (by decide)

/-- Claim C7: a register call with `is_master = true` and a non-empty id
answers success, points `master_account` at that id (replacing any
previous value), and leaves the record of every other account — the
previous master's row and its `is_master` flag included — exactly as it
was. -/
theorem claim7_register_master (st : ServerState) (req : RegisterReq) (now : Int)
    (ip : String) (hne : req.account_id ≠ "") (hm : req.is_master = some true) :
    (register_account st req now ip).1.master_account = some req.account_id ∧
    (∀ k, k ≠ req.account_id →
      dictLookup (register_account st req now ip).1.connected_accounts k =
        dictLookup st.connected_accounts k) ∧
    (register_account st req now ip).2 = Resp.success := by
  unfold register_account
  rw [if_neg hne]
  refine ⟨by simp [hm], ?_, rfl⟩
  intro k hk
  rw [dictLookup_dictSet, if_neg (fun e => hk e.symm)]

theorem claim7_witness :
    (register_account
        (run [Op.register (RegisterReq.mk "B" none none none none none none) 0 "8.8.8.8"])
        (RegisterReq.mk "A" none (some true) none none none none) 1 "9.9.9.9").1.master_account =
      some "A" ∧
    dictLookup (register_account
        (run [Op.register (RegisterReq.mk "B" none none none none none none) 0 "8.8.8.8"])
        (RegisterReq.mk "A" none (some true) none none none none) 1 "9.9.9.9").1.connected_accounts
        "B" =
      dictLookup (run [Op.register (RegisterReq.mk "B" none none none none none none)
        0 "8.8.8.8"]).connected_accounts "B" := by
  have h := claim7_register_master
    (run [Op.register (RegisterReq.mk "B" none none none none none none) 0 "8.8.8.8"])
    (RegisterReq.mk "A" none (some true) none none none none) 1 "9.9.9.9"
    (by decide) rfl
  exact ⟨h.1, h.2.1 "B" (by decide)⟩

/-- Claim C8 counterexample: the empty id `""` is absent from the
registry, yet `disconnect` answers it with the 400 validation error,
not success — it is not "a no-op returning success" for every absent
id. -/
theorem claim8_counterexample :
    dictLookup initialState.connected_accounts "" = none ∧
    (disconnect initialState "").2 ≠ Resp.success := by
  decide

/-- Claim C8 (amended): for every NON-EMPTY account_id, disconnect of a
present account sets exactly that record's `status` to `"disconnected"`
(every other field of it and every other account untouched, signal log
untouched), clears `master_account` iff the id equals the current master
pointer, and answers success; for a non-empty absent id it is a
state-preserving no-op answering success. -/
theorem claim8_disconnect_spec (st : ServerState) (account_id : String)
    (hne : account_id ≠ "") :
    (∀ a, dictLookup st.connected_accounts account_id = some a →
      dictLookup (disconnect st account_id).1.connected_accounts account_id =
        some { a with status := "disconnected" } ∧
      (∀ k, k ≠ account_id →
        dictLookup (disconnect st account_id).1.connected_accounts k =
          dictLookup st.connected_accounts k) ∧
      (disconnect st account_id).1.master_account =
        (if st.master_account = some account_id then none else st.master_account) ∧
      (disconnect st account_id).1.recent_signals = st.recent_signals ∧
      (disconnect st account_id).2 = Resp.success) ∧
    (dictLookup st.connected_accounts account_id = none →
      disconnect st account_id = (st, Resp.success)) := by
  constructor
  · intro a ha
    unfold disconnect
    rw [if_neg hne, ha]
    refine ⟨?_, ?_, rfl, rfl, rfl⟩
    · rw [dictLookup_dictSet, if_pos rfl]
    · intro k hk
      rw [dictLookup_dictSet, if_neg (fun e => hk e.symm)]
  · intro ha
    unfold disconnect
    rw [if_neg hne, ha]

theorem claim8_witness :
    dictLookup (disconnect
        (run [Op.register (RegisterReq.mk "A" none (some true) none none none none)
          0 "7.7.7.7"]) "A").1.connected_accounts "A" =
      some (Account.mk "A" "Unknown" true 0 0 0 0 "disconnected" "7.7.7.7" none none) ∧
    (disconnect
        (run [Op.register (RegisterReq.mk "A" none (some true) none none none none)
          0 "7.7.7.7"]) "A").1.master_account = none := by
  have h := (claim8_disconnect_spec
    (run [Op.register (RegisterReq.mk "A" none (some true) none none none none) 0 "7.7.7.7"])
    "A" (by decide)).1
    (Account.mk "A" "Unknown" true 0 0 0 0 "connected" "7.7.7.7" none none) (by decide)
  refine ⟨h.1, ?_⟩
  rw [h.2.2.1]
  decide

theorem handle_signal_stores (st : ServerState) (pl : List (String × JVal)) (now : Int)
    (hpl : pl ≠ []) :
    (handle_signal st pl now).1.recent_signals.getLast? =
      some (signal_data_of st pl now) ∧
    (handle_signal st pl now).2 = dictLookup (signal_data_of st pl now) "signal_id" := by
  unfold handle_signal
  rw [if_neg hpl]
  refine ⟨?_, rfl⟩
  simp only
  by_cases hlen : 1000 < (st.recent_signals ++ [signal_data_of st pl now]).length
  · rw [if_pos hlen]
    cases hx : st.recent_signals with
    | nil =>
      rw [hx] at hlen
      simp at hlen
    | cons y ys => simp
  · rw [if_neg hlen]
    simp

/-- Claim C10: because the payload is merged into the dict literal after
the generated fields, a payload entry named `signal_id`, `timestamp` or
`master_account` overrides the generated value: the signal stored at the
end of the log carries the caller's value, and (for `signal_id`) the id
the response returns is the caller's value too. -/
theorem claim10_payload_overrides (st : ServerState) (pl : List (String × JVal))
    (now : Int) (k : String) (v : JVal)
    (hk : k = "signal_id" ∨ k = "timestamp" ∨ k = "master_account")
    (hnd : NodupKeys pl) (hv : dictLookup pl k = some v) :
    dictLookup (signal_data_of st pl now) k = some v ∧
    (handle_signal st pl now).1.recent_signals.getLast? =
      some (signal_data_of st pl now) ∧
    (k = "signal_id" → (handle_signal st pl now).2 = some v) := by
  have hpl : pl ≠ [] := by
    intro h
    rw [h] at hv
    exact Option.noConfusion hv
  have hmerge : dictLookup (signal_data_of st pl now) k = some v :=
    dictLookup_foldl_dictSet pl _ k v hnd hv
  refine ⟨hmerge, (handle_signal_stores st pl now hpl).1, ?_⟩
  intro hks
  subst hks
  rw [(handle_signal_stores st pl now hpl).2]
  exact hmerge

theorem claim10_witness :
    dictLookup (signal_data_of initialState [("signal_id", JVal.str "custom")] 3)
        "signal_id" = some (JVal.str "custom") ∧
    (handle_signal initialState [("signal_id", JVal.str "custom")] 3).2 =
      some (JVal.str "custom") := by
  have h := claim10_payload_overrides initialState [("signal_id", JVal.str "custom")] 3
    "signal_id" (JVal.str "custom") (Or.inl rfl) (by decide) (by decide)
  exact ⟨h.1, h.2.2 rfl⟩

/-! ### Lock discipline of the registry endpoints -/

/-- The two pieces of state the registry lock (`accounts_lock`, source
line 22) is meant to guard. -/
inductive RegResource where
  | accountSet
  | masterPtr
deriving DecidableEq

/-- One access a handler makes to registry state: which resource, whether
it writes, and whether `accounts_lock` is held at that program point. -/
structure RegAccess where
  res : RegResource
  isWrite : Bool
  underLock : Bool
deriving DecidableEq

/-- The registry operations named by the concurrency discipline. -/
inductive RegistryEndpoint where
  | registerEp
  | heartbeatEp
  | disconnectEp
  | listAccountsEp
  | masterStatusEp
  | reaperEp
deriving DecidableEq

/-- The registry-state accesses each endpoint performs, in program order,
transcribed from the source:
* register (lines 154-165): writes `master_account` (156) and the
  account row (161) inside `with accounts_lock`, then reads the account
  set twice OUTSIDE the lock for the debug log lines 164-165;
* heartbeat (lines 216-227): membership read and field writes, all
  inside the lock;
* disconnect (lines 246-258): membership read, row write, master read
  and master write, all inside the lock;
* connected-accounts listing (lines 186-198): copies the account set
  inside the lock (187) but reads `master_account` OUTSIDE any lock in
  the response literal (198);
* master status (lines 270-272): reads `master_account` and the account
  set with NO lock at all;
* reaper cycle (lines 38-51): scan, deletions and master demotion all
  inside the lock. -/
def registryAccesses : RegistryEndpoint → List RegAccess
  | .registerEp =>
      [⟨.masterPtr, true, true⟩, ⟨.accountSet, true, true⟩,
       ⟨.accountSet, false, false⟩, ⟨.accountSet, false, false⟩]
  | .heartbeatEp =>
      [⟨.accountSet, false, true⟩, ⟨.accountSet, true, true⟩]
  | .disconnectEp =>
      [⟨.accountSet, false, true⟩, ⟨.accountSet, true, true⟩,
       ⟨.masterPtr, false, true⟩, ⟨.masterPtr, true, true⟩]
  | .listAccountsEp =>
      [⟨.accountSet, false, true⟩, ⟨.masterPtr, false, false⟩]
  | .masterStatusEp =>
      [⟨.masterPtr, false, false⟩, ⟨.accountSet, false, false⟩]
  | .reaperEp =>
      [⟨.accountSet, false, true⟩, ⟨.accountSet, true, true⟩,
       ⟨.masterPtr, false, true⟩, ⟨.masterPtr, true, true⟩]

/-- Claim C9 counterexample: the master-status endpoint performs registry
reads with `accounts_lock` not held, so not every registry operation
covers its read span with the exclusive section. -/
theorem claim9_counterexample :
    ((registryAccesses RegistryEndpoint.masterStatusEp).all
      (fun a => a.underLock)) = false := by
  decide

/-- Claim C9 (amended): every WRITE to registry state is made under
`accounts_lock`, and heartbeat, disconnect and the reaper hold the lock
for their whole access span; but register re-reads the account set
outside the lock (debug logging), the account listing reads the master
pointer outside the lock, and master status reads both resources with no
lock at all. -/
theorem claim9_lock_coverage :
    ((registryAccesses RegistryEndpoint.registerEp).filter
        (fun a => a.isWrite)).all (fun a => a.underLock) = true ∧
    ((registryAccesses RegistryEndpoint.heartbeatEp).all
        (fun a => a.underLock)) = true ∧
    ((registryAccesses RegistryEndpoint.disconnectEp).all
        (fun a => a.underLock)) = true ∧
    ((registryAccesses RegistryEndpoint.reaperEp).all
        (fun a => a.underLock)) = true ∧
    ((registryAccesses RegistryEndpoint.listAccountsEp).filter
        (fun a => decide (a.res = RegResource.accountSet))).all
        (fun a => a.underLock) = true ∧
    ((registryAccesses RegistryEndpoint.registerEp).all
        (fun a => a.underLock)) = false ∧
    ((registryAccesses RegistryEndpoint.listAccountsEp).all
        (fun a => a.underLock)) = false ∧
    ((registryAccesses RegistryEndpoint.masterStatusEp).all
        (fun a => a.underLock)) = false := by
  decide
